import Mathlib

/-!
Shallow embedding of the ahoy notification relay (Rust) for specification
checking.  The embedding covers:

* the `Notification` value type and its serde-derived JSON codec
  (src/client/message.rs), including the `skip_serializing_if` omission of
  absent optional fields and the `#[serde(default)]` treatment of `metadata`;
* a JSON value model, a compact JSON text renderer and a JSON text parser
  standing for the serde_json text layer used by `serde_json::to_string` /
  `serde_json::from_str` (numbers are modelled as integers; the notification
  fields themselves are strings, numbers can appear only inside `metadata`);
* effect-trace models of the daemon startup and accept loop
  (src/daemon/server.rs `run`), of the per-connection handler
  (`handle_connection`), and of the client send path
  (src/client/send.rs `send_notification`).

`metadata` is modelled as an association list standing for the Rust
`HashMap<String, serde_json::Value>`; the daemon-irrelevant duplicate-key
last-wins behaviour of `HashMap` deserialization inside the `metadata` object
is not modelled (the encoder never emits duplicate keys, since a `HashMap`
cannot hold them).
-/

namespace Ahoy

/-- JSON values, standing for `serde_json::Value` (numbers restricted to
integers). -/
inductive Json where
  | null : Json
  | bool : Bool → Json
  | num : Int → Json
  | str : String → Json
  | arr : List Json → Json
  | obj : List (String × Json) → Json

/-- The notification message from src/client/message.rs. -/
structure Notification where
  title : String
  body : String
  icon : Option String
  activate : Option String
  metadata : List (String × Json)

/-- `Notification::new` from src/client/message.rs. -/
def Notification.new (title body : String) : Notification :=
  { title := title, body := body, icon := none, activate := none, metadata := [] }

/-- `Notification::with_icon`. -/
def Notification.with_icon (n : Notification) (icon : String) : Notification :=
  { n with icon := some icon }

/-- `Notification::with_activate`. -/
def Notification.with_activate (n : Notification) (bundle_id : String) : Notification :=
  { n with activate := some bundle_id }

/-! ## Encoding a Notification to a JSON value

Serde derives field-order serialization: `title` and `body` always, `icon` and
`activate` only when `Some`, `metadata` only when non-empty
(`skip_serializing_if` attributes in src/client/message.rs). -/

/-- The JSON object produced by serializing a `Notification`. -/
def encodeJson (n : Notification) : Json :=
  Json.obj
    ([("title", Json.str n.title), ("body", Json.str n.body)]
      ++ (match n.icon with
          | some i => [("icon", Json.str i)]
          | none => [])
      ++ (match n.activate with
          | some a => [("activate", Json.str a)]
          | none => [])
      ++ (if n.metadata.isEmpty then [] else [("metadata", Json.obj n.metadata)]))

/-! ## JSON text rendering (serde_json compact output)

serde_json escapes `"`, `\` and the control characters U+0000..U+001F (with
the shorthand escapes for backspace, tab, newline, form feed, carriage
return), and emits all other characters verbatim. -/

/-- Lowercase hex digit character for a value below 16 (digits then
letters). -/
def hexChar (d : Nat) : Char :=
  if d < 10 then Char.ofNat (48 + d)
  else if d < 16 then Char.ofNat (87 + d)
  else '0'

/-- Escape one character as serde_json does inside a JSON string literal. -/
def escapeChar (c : Char) : List Char :=
  if c = '"' then ['\\', '"']
  else if c = '\\' then ['\\', '\\']
  else if c = '\n' then ['\\', 'n']
  else if c = '\t' then ['\\', 't']
  else if c = '\r' then ['\\', 'r']
  else if c.toNat = 8 then ['\\', 'b']
  else if c.toNat = 12 then ['\\', 'f']
  else if c.toNat < 32 then ['\\', 'u', '0', '0', hexChar (c.toNat / 16), hexChar (c.toNat % 16)]
  else [c]

/-- Escape every character of a string body. -/
def escapeList (l : List Char) : List Char := (l.map escapeChar).flatten

/-- Render a JSON string literal (quotes included). -/
def renderString (s : String) : List Char := '"' :: escapeList s.data ++ ['"']

/-- Decimal digit characters of a natural number, most significant first. -/
def renderNat (n : Nat) : List Char :=
  if n = 0 then ['0'] else (Nat.digits 10 n).reverse.map hexChar

/-- Decimal rendering of an integer. -/
def renderInt (i : Int) : List Char :=
  if i < 0 then '-' :: renderNat i.natAbs else renderNat i.toNat

mutual

/-- Compact JSON text of a value, as `serde_json::to_string` produces. -/
def renderJson : Json → List Char
  | Json.null => ['n', 'u', 'l', 'l']
  | Json.bool true => ['t', 'r', 'u', 'e']
  | Json.bool false => ['f', 'a', 'l', 's', 'e']
  | Json.num i => renderInt i
  | Json.str s => renderString s
  | Json.arr xs => '[' :: renderElems xs ++ [']']
  | Json.obj kvs => '{' :: renderMembers kvs ++ ['}']

/-- Comma-separated rendering of array elements. -/
def renderElems : List Json → List Char
  | [] => []
  | [x] => renderJson x
  | x :: xs => renderJson x ++ ',' :: renderElems xs

/-- Comma-separated rendering of object members. -/
def renderMembers : List (String × Json) → List Char
  | [] => []
  | [(k, v)] => renderString k ++ ':' :: renderJson v
  | (k, v) :: kvs => renderString k ++ ':' :: renderJson v ++ ',' :: renderMembers kvs

end

/-- The wire record for a notification: the compact JSON text of its
serialization (one line of the line-oriented transport, newline terminator
excluded). -/
def encodeRecord (n : Notification) : String :=
  String.mk (renderJson (encodeJson n))

/-! ## Decoding: serde_json text parsing

A recursive-descent parser for the modelled JSON grammar, standing for
`serde_json::from_str`.  The parser is fuelled; `decodeRecord` supplies fuel
exceeding the input length, which the round-trip proofs show is always
sufficient for rendered values. -/

/-- JSON insignificant whitespace. -/
def isWs (c : Char) : Bool := c = ' ' || c = '\t' || c = '\n' || c = '\r'

/-- Skip leading whitespace. -/
def skipWs : List Char → List Char
  | [] => []
  | c :: cs => if isWs c then skipWs cs else c :: cs

/-- Value of a hex digit character. -/
def hexVal (c : Char) : Option Nat :=
  if '0' ≤ c ∧ c ≤ '9' then some (c.toNat - 48)
  else if 'a' ≤ c ∧ c ≤ 'f' then some (c.toNat - 87)
  else if 'A' ≤ c ∧ c ≤ 'F' then some (c.toNat - 55)
  else none

/-- Prepend a character to the string accumulated by a string-body parse. -/
def consChar (c : Char) : Option (List Char × List Char) → Option (List Char × List Char)
  | some (l, rest) => some (c :: l, rest)
  | none => none

/-- Read four hex digits off the front of the input, yielding their value. -/
def hex4 : List Char → Option (Nat × List Char)
  | h1 :: h2 :: h3 :: h4 :: rest =>
    match hexVal h1, hexVal h2, hexVal h3, hexVal h4 with
    | some a, some b, some c, some d => some (((a * 16 + b) * 16 + c) * 16 + d, rest)
    | _, _, _, _ => none
  | _ => none

/-- Decode a single-character escape (the character following the backslash). -/
def escChar (e : Char) : Option Char :=
  if e = 'n' then some '\n'
  else if e = 't' then some '\t'
  else if e = 'r' then some '\r'
  else if e = 'b' then some (Char.ofNat 8)
  else if e = 'f' then some (Char.ofNat 12)
  else if e = '"' then some '"'
  else if e = '\\' then some '\\'
  else if e = '/' then some '/'
  else none

/-- Decode the body of a `\u` escape: four hex digits giving a scalar value,
or a high surrogate followed by a second `\uXXXX` low surrogate, combined as
serde_json combines them. -/
def parseUEsc (l : List Char) : Option (Char × List Char) :=
  match hex4 l with
  | none => none
  | some (m, rest) =>
    if m < 0xD800 ∨ 0xE000 ≤ m then some (Char.ofNat m, rest)
    else if m < 0xDC00 then
      match rest with
      | '\\' :: 'u' :: rest1 =>
        match hex4 rest1 with
        | some (m2, rest2) =>
          if 0xDC00 ≤ m2 ∧ m2 < 0xE000 then
            some (Char.ofNat (0x10000 + (m - 0xD800) * 0x400 + (m2 - 0xDC00)), rest2)
          else none
        | none => none
      | _ => none
    else none

/-- Parse the body of a JSON string literal after the opening quote,
returning the unescaped characters and the input following the closing
quote.  The first argument is fuel (callers supply more than the input
length).  As serde_json does: raw control characters (below U+0020) are
rejected, the named escapes and `\uXXXX` escapes are accepted, and a
high-surrogate escape must be followed by a low-surrogate escape, the pair
combining into one supplementary character. -/
def parseStringBody : Nat → List Char → Option (List Char × List Char)
  | 0, _ => none
  | _, [] => none
  | fuel + 1, c :: cs =>
    if c = '"' then some ([], cs)
    else if c = '\\' then
      match cs with
      | [] => none
      | e :: cs1 =>
        if e = 'u' then
          match parseUEsc cs1 with
          | some (d, rest) => consChar d (parseStringBody fuel rest)
          | none => none
        else
          match escChar e with
          | some d => consChar d (parseStringBody fuel cs1)
          | none => none
    else if c.toNat < 32 then none
    else consChar c (parseStringBody fuel cs)

/-- Parse a string body, supplying fuel that always suffices (every step of
`parseStringBody` consumes at least one input character). -/
def parseStr (cs : List Char) : Option (List Char × List Char) :=
  parseStringBody (cs.length + 1) cs

/-- Greedily consume decimal digits, accumulating their value. -/
def takeDigits (acc : Nat) : List Char → Nat × List Char
  | [] => (acc, [])
  | c :: cs => if c.isDigit then takeDigits (10 * acc + (c.toNat - 48)) cs else (acc, c :: cs)

mutual

/-- Parse one JSON value off the front of the input.  The first argument is
fuel (an upper bound on recursive calls; the top level supplies more than
the input length); the second is the remaining recursion depth, modelling
the serde_json recursion limit: entering a nested array or object with no
remaining depth is an error, as in serde_json `check_recursion`.  Numbers
follow the JSON grammar: a leading zero cannot be followed by further
digits. -/
def parseVal : Nat → Nat → List Char → Option (Json × List Char)
  | 0, _, _ => none
  | fuel + 1, depth, s =>
    match skipWs s with
    | [] => none
    | c :: cs =>
      if c = '"' then
        match parseStr cs with
        | some (l, r) => some (Json.str (String.mk l), r)
        | none => none
      else if c = '[' then
        if depth ≤ 1 then none
        else
          match skipWs cs with
          | [] => none
          | d :: ds =>
            if d = ']' then some (Json.arr [], ds)
            else
              match parseElems fuel (depth - 1) (d :: ds) with
              | some (xs, r) => some (Json.arr xs, r)
              | none => none
      else if c = '{' then
        if depth ≤ 1 then none
        else
          match skipWs cs with
          | [] => none
          | d :: ds =>
            if d = '}' then some (Json.obj [], ds)
            else
              match parseMembers fuel (depth - 1) (d :: ds) with
              | some (kvs, r) => some (Json.obj kvs, r)
              | none => none
      else if c = 't' then
        match cs with
        | 'r' :: 'u' :: 'e' :: r => some (Json.bool true, r)
        | _ => none
      else if c = 'f' then
        match cs with
        | 'a' :: 'l' :: 's' :: 'e' :: r => some (Json.bool false, r)
        | _ => none
      else if c = 'n' then
        match cs with
        | 'u' :: 'l' :: 'l' :: r => some (Json.null, r)
        | _ => none
      else if c = '-' then
        match cs with
        | c2 :: cs2 =>
          if c2 = '0' then some (Json.num 0, cs2)
          else if c2.isDigit then
            let p := takeDigits (c2.toNat - 48) cs2
            some (Json.num (-(p.1 : Int)), p.2)
          else none
        | [] => none
      else if c = '0' then some (Json.num 0, cs)
      else if c.isDigit then
        let p := takeDigits (c.toNat - 48) cs
        some (Json.num (p.1 : Int), p.2)
      else none

/-- Parse the non-empty comma-separated elements of an array, consuming the
closing bracket. -/
def parseElems : Nat → Nat → List Char → Option (List Json × List Char)
  | 0, _, _ => none
  | fuel + 1, depth, s =>
    match parseVal fuel depth s with
    | some (v, r) =>
      match skipWs r with
      | [] => none
      | d :: r2 =>
        if d = ',' then
          match parseElems fuel depth r2 with
          | some (xs, r3) => some (v :: xs, r3)
          | none => none
        else if d = ']' then some ([v], r2)
        else none
    | none => none

/-- Parse the non-empty comma-separated members of an object, consuming the
closing brace. -/
def parseMembers : Nat → Nat → List Char → Option (List (String × Json) × List Char)
  | 0, _, _ => none
  | fuel + 1, depth, s =>
    match skipWs s with
    | [] => none
    | q :: cs =>
      if q = '"' then
        match parseStr cs with
        | some (k, r1) =>
          match skipWs r1 with
          | [] => none
          | col :: r2 =>
            if col = ':' then
              match parseVal fuel depth r2 with
              | some (v, r3) =>
                match skipWs r3 with
                | [] => none
                | d :: r4 =>
                  if d = ',' then
                    match parseMembers fuel depth r4 with
                    | some (kvs, r5) => some ((String.mk k, v) :: kvs, r5)
                    | none => none
                  else if d = '}' then some ([(String.mk k, v)], r4)
                  else none
              | none => none
            else none
        | none => none
      else none

end

/-- The serde_json default recursion limit: 128 levels of nested containers. -/
def recursionLimit : Nat := 128

/-- Parse a complete JSON document: one value with only trailing whitespace,
as `serde_json::from_str` requires, under the default recursion limit. -/
def parseDocument (s : String) : Option Json :=
  match parseVal (s.data.length + 1) recursionLimit s.data with
  | some (j, rest) => if skipWs rest = [] then some j else none
  | none => none

/-! ## Decoding: serde-derived field semantics for Notification

Mirrors the derived `Deserialize` of src/client/message.rs: fields accepted in
any order, duplicate recognized fields rejected, unknown fields ignored,
`Option` fields accepting `null` or absence as `None`, `metadata` defaulting
to the empty map when absent. -/

/-- Decode failure, standing for `serde_json::Error`. -/
inductive DecodeError where
  | malformed : DecodeError
  | notAnObject : DecodeError
  | missingField : String → DecodeError
  | wrongKind : String → DecodeError
  | duplicateField : String → DecodeError
deriving DecidableEq

/-- Partially filled fields during struct deserialization. -/
structure FieldState where
  title : Option String
  body : Option String
  icon : Option (Option String)
  activate : Option (Option String)
  metadata : Option (List (String × Json))

/-- The empty field state. -/
def FieldState.init : FieldState :=
  { title := none, body := none, icon := none, activate := none, metadata := none }

/-- Process one object member during struct deserialization. -/
def stepField (p : FieldState) (kv : String × Json) : Except DecodeError FieldState :=
  if kv.1 = "title" then
    match p.title, kv.2 with
    | some _, _ => Except.error (DecodeError.duplicateField "title")
    | none, Json.str s => Except.ok { p with title := some s }
    | none, _ => Except.error (DecodeError.wrongKind "title")
  else if kv.1 = "body" then
    match p.body, kv.2 with
    | some _, _ => Except.error (DecodeError.duplicateField "body")
    | none, Json.str s => Except.ok { p with body := some s }
    | none, _ => Except.error (DecodeError.wrongKind "body")
  else if kv.1 = "icon" then
    match p.icon, kv.2 with
    | some _, _ => Except.error (DecodeError.duplicateField "icon")
    | none, Json.str s => Except.ok { p with icon := some (some s) }
    | none, Json.null => Except.ok { p with icon := some none }
    | none, _ => Except.error (DecodeError.wrongKind "icon")
  else if kv.1 = "activate" then
    match p.activate, kv.2 with
    | some _, _ => Except.error (DecodeError.duplicateField "activate")
    | none, Json.str s => Except.ok { p with activate := some (some s) }
    | none, Json.null => Except.ok { p with activate := some none }
    | none, _ => Except.error (DecodeError.wrongKind "activate")
  else if kv.1 = "metadata" then
    match p.metadata, kv.2 with
    | some _, _ => Except.error (DecodeError.duplicateField "metadata")
    | none, Json.obj kvs => Except.ok { p with metadata := some kvs }
    | none, _ => Except.error (DecodeError.wrongKind "metadata")
  else Except.ok p

/-- Finish struct deserialization: require title and body, default the rest. -/
def finishFields (p : FieldState) : Except DecodeError Notification :=
  match p.title with
  | none => Except.error (DecodeError.missingField "title")
  | some t =>
    match p.body with
    | none => Except.error (DecodeError.missingField "body")
    | some b =>
      Except.ok
        { title := t, body := b, icon := p.icon.getD none,
          activate := p.activate.getD none, metadata := p.metadata.getD [] }

/-- Decode a `Notification` from the members of a JSON object. -/
def decodeFields (kvs : List (String × Json)) : Except DecodeError Notification :=
  match kvs.foldlM stepField FieldState.init with
  | Except.ok p => finishFields p
  | Except.error e => Except.error e

/-- Decode a `Notification` from a JSON value. -/
def decodeValue : Json → Except DecodeError Notification
  | Json.obj kvs => decodeFields kvs
  | _ => Except.error DecodeError.notAnObject

/-- Decode a `Notification` from one wire record, standing for
`serde_json::from_str::<Notification>` (src/daemon/server.rs line 41). -/
def decodeRecord (s : String) : Except DecodeError Notification :=
  match parseDocument s with
  | some j => decodeValue j
  | none => Except.error DecodeError.malformed

/-! ## Auxiliary definitions for the codec theorems -/

mutual

/-- Fuel consumed by `parseVal` on the rendered form of a value. -/
def boundVal : Json → Nat
  | Json.null => 1
  | Json.bool _ => 1
  | Json.num _ => 1
  | Json.str _ => 1
  | Json.arr xs => 1 + boundElems xs
  | Json.obj kvs => 1 + boundMembers kvs

/-- Fuel consumed by `parseElems` on rendered array elements. -/
def boundElems : List Json → Nat
  | [] => 0
  | [x] => 1 + boundVal x
  | x :: xs => 1 + boundVal x + boundElems xs

/-- Fuel consumed by `parseMembers` on rendered object members. -/
def boundMembers : List (String × Json) → Nat
  | [] => 0
  | [(_, v)] => 1 + boundVal v
  | (_, v) :: kvs => 1 + boundVal v + boundMembers kvs

end

mutual

/-- Container nesting depth of a JSON value: the number of nested arrays or
objects entered on the deepest path.  serde_json can parse a value exactly
when this is below its recursion limit. -/
def jsonDepth : Json → Nat
  | Json.null => 0
  | Json.bool _ => 0
  | Json.num _ => 0
  | Json.str _ => 0
  | Json.arr xs => 1 + depthElems xs
  | Json.obj kvs => 1 + depthMembers kvs

/-- Greatest nesting depth among array elements. -/
def depthElems : List Json → Nat
  | [] => 0
  | x :: xs => max (jsonDepth x) (depthElems xs)

/-- Greatest nesting depth among object member values. -/
def depthMembers : List (String × Json) → Nat
  | [] => 0
  | (_, v) :: kvs => max (jsonDepth v) (depthMembers kvs)

end

/-- A JSON value of nesting depth exactly `m`: arrays nested `m` deep. -/
def deepJson : Nat → Json
  | 0 => Json.null
  | m + 1 => Json.arr [deepJson m]

/-- Trailing input that cannot extend a decimal number parse. -/
def restSafe : List Char → Prop
  | [] => True
  | c :: _ => c.isDigit = false

/-- No embedded newline in a string. -/
def strNoNewline (s : String) : Bool := s.data.all fun c => c ≠ '\n'

mutual

/-- No embedded newline in any string (key or value) inside a JSON value. -/
def jsonNoNewline : Json → Bool
  | Json.null => true
  | Json.bool _ => true
  | Json.num _ => true
  | Json.str s => strNoNewline s
  | Json.arr xs => jsonListNoNewline xs
  | Json.obj kvs => jsonMembersNoNewline kvs

/-- `jsonNoNewline` over a list of values. -/
def jsonListNoNewline : List Json → Bool
  | [] => true
  | x :: xs => jsonNoNewline x && jsonListNoNewline xs

/-- `jsonNoNewline` over object members. -/
def jsonMembersNoNewline : List (String × Json) → Bool
  | [] => true
  | (k, v) :: kvs => strNoNewline k && jsonNoNewline v && jsonMembersNoNewline kvs

end

/-- No embedded newline in any string field of a notification: title, body,
the optional icon and activate, and everything reachable in metadata. -/
def notifNoNewline (n : Notification) : Bool :=
  strNoNewline n.title && strNoNewline n.body
    && (match n.icon with
        | some s => strNoNewline s
        | none => true)
    && (match n.activate with
        | some s => strNoNewline s
        | none => true)
    && jsonMembersNoNewline n.metadata

/-- The keys the derived `Deserialize` of `Notification` recognizes. -/
def recognizedKey (k : String) : Bool :=
  k = "title" || k = "body" || k = "icon" || k = "activate" || k = "metadata"

/-- One observable action of the connection handler on one record. -/
inductive HandlerEvent where
  | dispatched : Notification → Bool → HandlerEvent
  | decodeFailed : HandlerEvent

/-- The event trace of `handle_connection` on the lines of one connection,
given the platform notifier outcome `notifyOk`. -/
def handle_connection (notifyOk : Notification → Bool) : List String → List HandlerEvent
  | [] => []
  | line :: rest =>
    match decodeRecord line with
    | Except.ok n => HandlerEvent.dispatched n (notifyOk n) :: handle_connection notifyOk rest
    | Except.error _ => HandlerEvent.decodeFailed :: handle_connection notifyOk rest

/-- The notifications a handler trace dispatched to the platform notifier, in
order. -/
def dispatchedNotifs (evs : List HandlerEvent) : List Notification :=
  evs.filterMap fun e =>
    match e with
    | HandlerEvent.dispatched n _ => some n
    | HandlerEvent.decodeFailed => none

/-! ## Daemon startup (src/daemon/server.rs `run`, lines 11-18)

`run` removes a pre-existing socket-path artifact, then binds; either
`remove_file` or `bind` failing propagates out through the `?` operator to the
process exit path.  The model takes the pre-state (does an artifact exist) and
the outcomes the file system would give to the removal and the bind. -/

/-- Observable startup action. -/
inductive StartupEvent where
  | removeArtifact : StartupEvent
  | bindAttempt : StartupEvent
deriving DecidableEq

/-- Event trace and success flag of daemon startup. -/
def daemonStartup (artifactExists removeOk bindOk : Bool) : List StartupEvent × Bool :=
  if artifactExists then
    if removeOk then ([StartupEvent.removeArtifact, StartupEvent.bindAttempt], bindOk)
    else ([StartupEvent.removeArtifact], false)
  else ([StartupEvent.bindAttempt], bindOk)

/-! ## Daemon accept loop (src/daemon/server.rs `run`, lines 20-33)

The loop matches each accept outcome: a connection is handed to a spawned
handler task (whose eventual result the listener never awaits) and an accept
error is logged; in both cases the loop continues with the next accept.  The
model runs the loop over a finite prefix of accept outcomes; `handlerResult`
is the eventual success of each spawned handler, which the code never
consults. -/

/-- Outcome of one `listener.accept()` call; connections are named by `Nat`. -/
inductive AcceptOutcome where
  | accepted : Nat → AcceptOutcome
  | failed : AcceptOutcome

/-- Observable action of the listener per accept outcome. -/
inductive ListenerEvent where
  | spawnedHandler : Nat → ListenerEvent
  | loggedAcceptError : ListenerEvent
deriving DecidableEq

/-- Event trace of the accept loop over a finite prefix of accept outcomes. -/
def listenerLoop (handlerResult : Nat → Bool) : List AcceptOutcome → List ListenerEvent
  | [] => []
  | AcceptOutcome.accepted c :: rest =>
    ListenerEvent.spawnedHandler c :: listenerLoop handlerResult rest
  | AcceptOutcome.failed :: rest =>
    ListenerEvent.loggedAcceptError :: listenerLoop handlerResult rest

/-! ## Client send path (src/client/send.rs)

`send_notification` (lines 171-174) logs and calls `notify::show` in-process;
it performs no socket operation.  The model records the trace of externally
visible operations the send performs, over the vocabulary the specification
talks about, and returns the notifier outcome, which `run` propagates to the
process exit path. -/

/-- Operations in the client sender vocabulary of the specification. -/
inductive SendEffect where
  | showNotification : Notification → SendEffect
  | connectSocket : String → SendEffect
  | writeRecord : String → SendEffect
  | flushStream : SendEffect

/-- The well-known socket path (src/config.rs `socket_path`), relative to the
home directory. -/
def socketPathName : String := ".ahoy/ahoy.sock"

/-- Effect trace and result of `send_notification`, given the platform
notifier outcome `notifyShow` (the `notify::show` dispatch of
src/notify/mod.rs). -/
def send_notification (notifyShow : Notification → Except String Unit) (n : Notification) :
    List SendEffect × Except String Unit :=
  ([SendEffect.showNotification n], notifyShow n)

/-! # Theorems -/

/-! ## Listener loop helpers -/

theorem listenerLoop_append (h : Nat → Bool) (xs ys : List AcceptOutcome) :
    listenerLoop h (xs ++ ys) = listenerLoop h xs ++ listenerLoop h ys := by
  induction xs with
  | nil => rfl
  | cons o rest ih => cases o <;> simp [listenerLoop, ih]

theorem listenerLoop_indep (h h' : Nat → Bool) (os : List AcceptOutcome) :
    listenerLoop h os = listenerLoop h' os := by
  induction os with
  | nil => rfl
  | cons o rest ih => cases o <;> simp [listenerLoop, ih]

theorem listenerLoop_length (h : Nat → Bool) (os : List AcceptOutcome) :
    (listenerLoop h os).length = os.length := by
  induction os with
  | nil => rfl
  | cons o rest ih => cases o <;> simp [listenerLoop, ih]

/-- Claim C7: the daemon listener loop never terminates because of a failed
accept: every accept error is logged and every outcome after it is still
processed; every accepted connection yields a spawned handler and the loop
returns to accepting; the behaviour of the listener does not depend on any
eventual handler result (it never waits on one); and every accept outcome
in a prefix produces exactly one listener event. -/
theorem listener_loop_never_stops_on_accept_error (h h' : Nat → Bool) (c : Nat)
    (os1 os2 : List AcceptOutcome) :
    listenerLoop h (os1 ++ AcceptOutcome.failed :: os2)
        = listenerLoop h os1 ++ ListenerEvent.loggedAcceptError :: listenerLoop h os2
      ∧ listenerLoop h (os1 ++ AcceptOutcome.accepted c :: os2)
        = listenerLoop h os1 ++ ListenerEvent.spawnedHandler c :: listenerLoop h os2
      ∧ listenerLoop h os1 = listenerLoop h' os1
      ∧ (listenerLoop h os1).length = os1.length := by
  refine ⟨?_, ?_, listenerLoop_indep h h' os1, listenerLoop_length h os1⟩
  · rw [listenerLoop_append]
    simp [listenerLoop]
  · rw [listenerLoop_append]
    simp [listenerLoop]

/-- Claim C4: on daemon startup a pre-existing artifact at the socket path is
removed before any bind attempt; startup with a pre-existing stale artifact
succeeds in binding (when removal and the bind itself succeed); a bind
failure is fatal to startup; and the bind is never retried. -/
theorem daemon_startup_stale_removal_and_fatal_bind (ex removeOk bindOk : Bool) :
    (ex = true → (daemonStartup ex removeOk bindOk).1.head? = some StartupEvent.removeArtifact)
      ∧ (ex = true ∧ removeOk = true ∧ bindOk = true → (daemonStartup ex removeOk bindOk).2 = true)
      ∧ (bindOk = false → (daemonStartup ex removeOk bindOk).2 = false)
      ∧ (daemonStartup ex removeOk bindOk).1.count StartupEvent.bindAttempt ≤ 1 := by
  cases ex <;> cases removeOk <;> cases bindOk <;>
    simp [daemonStartup]

/-- Witness for C4 at concrete inputs: with a stale artifact present and a
healthy filesystem, startup removes the artifact first and succeeds. -/
theorem daemon_startup_stale_removal_witness :
    (daemonStartup true true true).2 = true
      ∧ (daemonStartup true true true).1.head? = some StartupEvent.removeArtifact := by
  refine ⟨(daemon_startup_stale_removal_and_fatal_bind true true true).2.1 ⟨rfl, rfl, rfl⟩, ?_⟩
  exact (daemon_startup_stale_removal_and_fatal_bind true true true).1 rfl

/-! ## Client send path -/

/-- Claim C1 counterexample: the client send path performs no connection to
the well-known socket endpoint at all — `send_notification` invokes the
platform notifier directly, so its effect trace on a concrete notification is
exactly one in-process show and contains no socket connect. -/
theorem client_send_never_connects_cex :
    (send_notification (fun _ => Except.ok ()) (Notification.new "Ahoy" "Build finished")).1
        = [SendEffect.showNotification (Notification.new "Ahoy" "Build finished")]
      ∧ SendEffect.connectSocket socketPathName
          ∉ (send_notification (fun _ => Except.ok ()) (Notification.new "Ahoy" "Build finished")).1 := by
  constructor
  · rfl
  · intro hmem
    simp [send_notification] at hmem

/-- Claim C1 as amended: the client send path has no daemon path. For every
notification, `send_notification` invokes the platform notifier directly
in-process; it opens no socket connection, writes no record, flushes no
stream, and returns the result of the notifier itself (which the caller propagates to
the process exit path). -/
theorem client_send_is_direct (notifyShow : Notification → Except String Unit)
    (n : Notification) :
    (send_notification notifyShow n).1 = [SendEffect.showNotification n]
      ∧ (∀ p, SendEffect.connectSocket p ∉ (send_notification notifyShow n).1)
      ∧ (∀ s, SendEffect.writeRecord s ∉ (send_notification notifyShow n).1)
      ∧ SendEffect.flushStream ∉ (send_notification notifyShow n).1
      ∧ (send_notification notifyShow n).2 = notifyShow n := by
  refine ⟨rfl, ?_, ?_, ?_, rfl⟩ <;> simp [send_notification]

/-! ## Notification construction -/

/-- Claim C9 counterexample: a `Notification` with an empty title is freely
constructible and freely decodable — neither `Notification::new` nor the
decoder enforces a non-empty title. -/
theorem empty_title_notification_cex :
    (Notification.new "" "b").title = ""
      ∧ decodeValue (Json.obj [("title", Json.str ""), ("body", Json.str "b")])
          = Except.ok { title := "", body := "b", icon := none, activate := none, metadata := [] } := by
  exact ⟨rfl, rfl⟩

/-- Claim C9 as amended: every `Notification` has a title field, but it is
whatever string was supplied, with no non-emptiness validation —
`Notification::new` stores its arguments verbatim and leaves the optional
fields empty. -/
theorem notification_new_fields (t b : String) :
    (Notification.new t b).title = t
      ∧ (Notification.new t b).body = b
      ∧ (Notification.new t b).icon = none
      ∧ (Notification.new t b).activate = none
      ∧ (Notification.new t b).metadata = [] := by
  exact ⟨rfl, rfl, rfl, rfl, rfl⟩

/-! ## Encoded record keys -/

/-- Claim C6: the encoded record of a notification carries exactly the keys
`title` and `body` plus each optional field that is present (`icon`,
`activate` when `Some`, `metadata` when non-empty), in declaration order —
absent fields produce no key at all, not a null or empty placeholder. -/
theorem encode_keys_exactly_present (n : Notification) :
    ∃ kvs, encodeJson n = Json.obj kvs
      ∧ kvs.map Prod.fst =
          ["title", "body"]
            ++ (match n.icon with
                | some _ => ["icon"]
                | none => [])
            ++ (match n.activate with
                | some _ => ["activate"]
                | none => [])
            ++ (if n.metadata.isEmpty then [] else ["metadata"]) := by
  refine ⟨_, rfl, ?_⟩
  rcases n with ⟨t, b, i, a, md⟩
  rcases i <;> rcases a <;> rcases hmd : md.isEmpty <;>
    simp [encodeJson, hmd]

/-! ## Connection handler dispatch -/

theorem handle_connection_dispatch (notifyOk : Notification → Bool) (lines : List String) :
    dispatchedNotifs (handle_connection notifyOk lines)
      = lines.filterMap fun l => (decodeRecord l).toOption := by
  induction lines with
  | nil => rfl
  | cons l rest ih =>
    cases hl : decodeRecord l <;>
      simp [handle_connection, dispatchedNotifs, hl, Except.toOption, ih,
        dispatchedNotifs] <;>
      simpa [dispatchedNotifs] using ih

theorem handle_connection_length (notifyOk : Notification → Bool) (lines : List String) :
    (handle_connection notifyOk lines).length = lines.length := by
  induction lines with
  | nil => rfl
  | cons l rest ih =>
    cases hl : decodeRecord l <;> simp [handle_connection, hl, ih]

/-- Claim C2: the connection handler dispatches to the platform notifier
exactly the records that decode, in arrival order, independently of notifier
outcomes; it processes every record of the stream (neither a malformed
record nor a notifier failure stops it); and a malformed record followed by a
well-formed one yields exactly one dispatch, of the well-formed record. -/
theorem handler_dispatches_decoded_in_order (notifyOk : Notification → Bool)
    (lines : List String) (bad good : String) (n : Notification)
    (hbad : (decodeRecord bad).isOk = false) (hgood : decodeRecord good = Except.ok n) :
    dispatchedNotifs (handle_connection notifyOk lines)
        = (lines.filterMap fun l => (decodeRecord l).toOption)
      ∧ (handle_connection notifyOk lines).length = lines.length
      ∧ dispatchedNotifs (handle_connection notifyOk [bad, good]) = [n] := by
  refine ⟨handle_connection_dispatch notifyOk lines,
    handle_connection_length notifyOk lines, ?_⟩
  cases hb : decodeRecord bad with
  | ok m => rw [hb] at hbad; simp [Except.isOk, Except.toBool] at hbad
  | error e =>
    simp [handle_connection, hb, hgood, dispatchedNotifs]

/-- Witness for C2: a malformed record (`oops`) followed by a well-formed one
produces exactly one dispatch, of the well-formed record, whatever the
notifier outcome. -/
theorem handler_dispatches_decoded_in_order_witness :
    (decodeRecord "oops").isOk = false
      ∧ decodeRecord "\x7b\"title\":\"a\",\"body\":\"b\"\x7d"
          = Except.ok { title := "a", body := "b", icon := none, activate := none, metadata := [] }
      ∧ dispatchedNotifs
          (handle_connection (fun _ => false) ["oops", "\x7b\"title\":\"a\",\"body\":\"b\"\x7d"])
          = [{ title := "a", body := "b", icon := none, activate := none, metadata := [] }] := by
  refine ⟨rfl, rfl, ?_⟩
  exact (handler_dispatches_decoded_in_order (fun _ => false) []
    "oops" "\x7b\"title\":\"a\",\"body\":\"b\"\x7d"
    { title := "a", body := "b", icon := none, activate := none, metadata := [] }
    rfl rfl).2.2

/-! ## Character and digit lemmas -/

theorem hexChar_isDigit {d : Nat} (h : d < 10) : (hexChar d).isDigit = true := by
  interval_cases d <;> decide

theorem hexChar_toNat {d : Nat} (h : d < 10) : (hexChar d).toNat = 48 + d := by
  interval_cases d <;> decide

theorem hexChar_not_ws {d : Nat} (h : d < 10) : isWs (hexChar d) = false := by
  interval_cases d <;> decide

theorem hexChar_ne_of_not_digit {d : Nat} (h : d < 10) (c : Char)
    (hc : c.isDigit = false) : hexChar d ≠ c := by
  intro heq
  have hd := hexChar_isDigit h
  rw [heq, hc] at hd
  exact Bool.false_ne_true hd

theorem hexVal_hexChar {d : Nat} (h : d < 16) : hexVal (hexChar d) = some d := by
  interval_cases d <;> decide

theorem hexChar_ne_newline (d : Nat) : hexChar d ≠ '\n' := by
  rcases Nat.lt_or_ge d 16 with h | h
  · interval_cases d <;> decide
  · have h10 : ¬ d < 10 := by omega
    have h16 : ¬ d < 16 := by omega
    simp [hexChar, h10, h16]

theorem skipWs_cons_not_ws {c : Char} {l : List Char} (h : isWs c = false) :
    skipWs (c :: l) = c :: l := by
  simp [skipWs, h]

/-! ## String body round trip -/

theorem psb_quote (fuel : Nat) (cs : List Char) :
    parseStringBody (fuel + 1) ('"' :: cs) = some ([], cs) := by
  rw [parseStringBody.eq_def]
  simp

theorem psb_raw {c : Char} (h1 : c ≠ '"') (h2 : c ≠ '\\') (h3 : ¬ c.toNat < 32)
    (fuel : Nat) (cs : List Char) :
    parseStringBody (fuel + 1) (c :: cs) = consChar c (parseStringBody fuel cs) := by
  rw [parseStringBody.eq_def]
  simp [h1, h2, h3]

theorem psb_esc_n (fuel : Nat) (cs : List Char) :
    parseStringBody (fuel + 1) ('\\' :: 'n' :: cs)
      = consChar '\n' (parseStringBody fuel cs) := by
  rw [parseStringBody.eq_def]
  simp [escChar]

theorem psb_esc_t (fuel : Nat) (cs : List Char) :
    parseStringBody (fuel + 1) ('\\' :: 't' :: cs)
      = consChar '\t' (parseStringBody fuel cs) := by
  rw [parseStringBody.eq_def]
  simp [escChar]

theorem psb_esc_r (fuel : Nat) (cs : List Char) :
    parseStringBody (fuel + 1) ('\\' :: 'r' :: cs)
      = consChar '\r' (parseStringBody fuel cs) := by
  rw [parseStringBody.eq_def]
  simp [escChar]

theorem psb_esc_b (fuel : Nat) (cs : List Char) :
    parseStringBody (fuel + 1) ('\\' :: 'b' :: cs)
      = consChar (Char.ofNat 8) (parseStringBody fuel cs) := by
  rw [parseStringBody.eq_def]
  simp [escChar]

theorem psb_esc_f (fuel : Nat) (cs : List Char) :
    parseStringBody (fuel + 1) ('\\' :: 'f' :: cs)
      = consChar (Char.ofNat 12) (parseStringBody fuel cs) := by
  rw [parseStringBody.eq_def]
  simp [escChar]

theorem psb_esc_quote (fuel : Nat) (cs : List Char) :
    parseStringBody (fuel + 1) ('\\' :: '"' :: cs)
      = consChar '"' (parseStringBody fuel cs) := by
  rw [parseStringBody.eq_def]
  simp [escChar]

theorem psb_esc_backslash (fuel : Nat) (cs : List Char) :
    parseStringBody (fuel + 1) ('\\' :: '\\' :: cs)
      = consChar '\\' (parseStringBody fuel cs) := by
  rw [parseStringBody.eq_def]
  simp [escChar]

theorem parseUEsc_bmp {m : Nat} (hm : m < 0xD800 ∨ 0xE000 ≤ m) {l : List Char}
    {rest : List Char} (h : hex4 l = some (m, rest)) :
    parseUEsc l = some (Char.ofNat m, rest) := by
  unfold parseUEsc
  rw [h]
  exact if_pos hm

theorem psb_esc_u00 {x y : Nat} (hx : x < 16) (hy : y < 16) (fuel : Nat) (cs : List Char) :
    parseStringBody (fuel + 1) ('\\' :: 'u' :: '0' :: '0' :: hexChar x :: hexChar y :: cs)
      = consChar (Char.ofNat (x * 16 + y)) (parseStringBody fuel cs) := by
  have h4 : hex4 ('0' :: '0' :: hexChar x :: hexChar y :: cs) = some (x * 16 + y, cs) := by
    simp [hex4, hexVal_hexChar hx, hexVal_hexChar hy, show hexVal '0' = some 0 from rfl]
  have hu := parseUEsc_bmp (Or.inl (by omega)) h4
  rw [parseStringBody.eq_def]
  simp [hu]

theorem parseStringBody_render (l : List Char) (fuel : Nat) (hf : l.length < fuel)
    (rest : List Char) :
    parseStringBody fuel (escapeList l ++ '"' :: rest) = some (l, rest) := by
  induction l generalizing fuel with
  | nil =>
    obtain ⟨f, rfl⟩ : ∃ f, fuel = f + 1 := ⟨fuel - 1, by omega⟩
    simpa [escapeList] using psb_quote f rest
  | cons c t ih =>
    obtain ⟨f, rfl⟩ : ∃ f, fuel = f + 1 := ⟨fuel - 1, by omega⟩
    have hft : t.length < f := by simp at hf; omega
    have iht := ih f hft
    have hesc : escapeList (c :: t) = escapeChar c ++ escapeList t := by
      simp [escapeList]
    rw [hesc, List.append_assoc]
    by_cases h1 : c = '"'
    · subst h1
      rw [show escapeChar '"' = ['\\', '"'] from rfl]
      simp [psb_esc_quote, consChar, iht]
    · by_cases h2 : c = '\\'
      · subst h2
        rw [show escapeChar '\\' = ['\\', '\\'] from rfl]
        simp [psb_esc_backslash, consChar, iht]
      · by_cases h3 : c = '\n'
        · subst h3
          rw [show escapeChar '\n' = ['\\', 'n'] from rfl]
          simp [psb_esc_n, consChar, iht]
        · by_cases h4 : c = '\t'
          · subst h4
            rw [show escapeChar '\t' = ['\\', 't'] from rfl]
            simp [psb_esc_t, consChar, iht]
          · by_cases h5 : c = '\r'
            · subst h5
              rw [show escapeChar '\r' = ['\\', 'r'] from rfl]
              simp [psb_esc_r, consChar, iht]
            · by_cases h6 : c.toNat = 8
              · have hesc2 : escapeChar c = ['\\', 'b'] := by
                  simp [escapeChar, h1, h2, h3, h4, h5, h6]
                have hc : Char.ofNat 8 = c := by rw [← h6, Char.ofNat_toNat]
                subst hc
                rw [hesc2]
                simp [psb_esc_b, consChar, iht]
              · by_cases h7 : c.toNat = 12
                · have hesc2 : escapeChar c = ['\\', 'f'] := by
                    simp [escapeChar, h1, h2, h3, h4, h5, h6, h7]
                  have hc : Char.ofNat 12 = c := by rw [← h7, Char.ofNat_toNat]
                  subst hc
                  rw [hesc2]
                  simp [psb_esc_f, consChar, iht]
                · by_cases h8 : c.toNat < 32
                  · have hdiv : c.toNat / 16 < 16 := by omega
                    have hmod : c.toNat % 16 < 16 := by omega
                    have hesc2 : escapeChar c =
                        ['\\', 'u', '0', '0', hexChar (c.toNat / 16), hexChar (c.toNat % 16)] := by
                      simp [escapeChar, h1, h2, h3, h4, h5, h6, h7, h8]
                    have hm : c.toNat / 16 * 16 + c.toNat % 16 = c.toNat := by omega
                    have hc : Char.ofNat (c.toNat / 16 * 16 + c.toNat % 16) = c := by
                      rw [hm, Char.ofNat_toNat]
                    rw [hesc2]
                    simp [psb_esc_u00 hdiv hmod, consChar, iht, hc]
                  · have hesc2 : escapeChar c = [c] := by
                      simp [escapeChar, h1, h2, h3, h4, h5, h6, h7, h8]
                    rw [hesc2]
                    simp [psb_raw h1 h2 h8, consChar, iht]

theorem escapeList_length_ge (l : List Char) : l.length ≤ (escapeList l).length := by
  induction l with
  | nil => simp [escapeList]
  | cons c t ih =>
    have h1 : 1 ≤ (escapeChar c).length := by
      simp only [escapeChar]
      repeat' split
      all_goals simp
    simp only [escapeList, List.map_cons, List.flatten_cons, List.length_append,
      List.length_cons]
    simp only [escapeList] at ih
    omega

theorem parseStr_render (l : List Char) (rest : List Char) :
    parseStr (escapeList l ++ '"' :: rest) = some (l, rest) := by
  have hle := escapeList_length_ge l
  refine parseStringBody_render l _ ?_ rest
  simp
  omega

/-! ## Number round trip -/

theorem takeDigits_digits (ds : List Nat) (hds : ∀ d ∈ ds, d < 10) (acc : Nat)
    (rest : List Char) (hrest : restSafe rest) :
    takeDigits acc (ds.map hexChar ++ rest)
      = (ds.foldl (fun a d => 10 * a + d) acc, rest) := by
  induction ds generalizing acc with
  | nil =>
    simp only [List.map_nil, List.nil_append, List.foldl_nil]
    cases rest with
    | nil => rfl
    | cons c cs =>
      have hc : c.isDigit = false := hrest
      simp [takeDigits, hc]
  | cons d ds ih =>
    have hd : d < 10 := hds d (by simp)
    have hdig := hexChar_isDigit hd
    have htn := hexChar_toNat hd
    simp only [List.map_cons, List.cons_append, takeDigits, hdig, if_true, List.foldl_cons]
    rw [htn]
    have : 48 + d - 48 = d := by omega
    rw [this]
    exact ih (fun x hx => hds x (by simp [hx])) (10 * acc + d)

theorem foldr_ofDigits (L : List Nat) :
    L.foldr (fun x y => 10 * y + x) 0 = Nat.ofDigits 10 L := by
  induction L with
  | nil => simp [Nat.ofDigits]
  | cons d L ih =>
    rw [List.foldr_cons, ih, Nat.ofDigits_cons]
    omega

theorem foldl_reverse_digits (n : Nat) :
    ((Nat.digits 10 n).reverse).foldl (fun a d => 10 * a + d) 0 = n := by
  rw [List.foldl_reverse, foldr_ofDigits]
  exact_mod_cast Nat.ofDigits_digits 10 n

theorem renderNat_spec (n : Nat) :
    ∃ ds, ds ≠ [] ∧ (∀ d ∈ ds, d < 10) ∧ renderNat n = ds.map hexChar
      ∧ ds.foldl (fun a d => 10 * a + d) 0 = n := by
  by_cases h : n = 0
  · subst h
    exact ⟨[0], by simp, by simp, by simp [renderNat, hexChar], by simp⟩
  · refine ⟨(Nat.digits 10 n).reverse, ?_, ?_, ?_, foldl_reverse_digits n⟩
    · simp [Nat.digits_ne_nil_iff_ne_zero, h]
    · intro x hx
      exact Nat.digits_lt_base (by norm_num) (List.mem_reverse.mp hx)
    · simp [renderNat, h]

theorem hexChar_ne_zero_char {d : Nat} (h : d < 10) (hd : d ≠ 0) : hexChar d ≠ '0' := by
  interval_cases d
  · exact absurd rfl hd
  all_goals decide

/-- For a nonzero number the rendered digit string starts with a nonzero
digit: a rendered numeral never has a leading zero. -/
theorem renderNat_spec_pos (n : Nat) (hn : n ≠ 0) :
    ∃ (d0 : Nat) (ds : List Nat), d0 ≠ 0 ∧ d0 < 10 ∧ (∀ d ∈ ds, d < 10)
      ∧ renderNat n = hexChar d0 :: ds.map hexChar
      ∧ ds.foldl (fun a d => 10 * a + d) d0 = n := by
  have hdne : Nat.digits 10 n ≠ [] := Nat.digits_ne_nil_iff_ne_zero.mpr hn
  have hrne : (Nat.digits 10 n).reverse ≠ [] := by simpa using hdne
  obtain ⟨d0, ds, hcons⟩ := List.exists_cons_of_ne_nil hrne
  have hfold := foldl_reverse_digits n
  rw [hcons] at hfold
  have hd0mem : d0 ∈ Nat.digits 10 n := by
    have : d0 ∈ (Nat.digits 10 n).reverse := by rw [hcons]; simp
    simpa using this
  have hd0lt : d0 < 10 := Nat.digits_lt_base (by norm_num) hd0mem
  have hd0ne : d0 ≠ 0 := by
    have hlast := Nat.getLast_digit_ne_zero 10 hn
    have h1 : (Nat.digits 10 n).getLast? = some d0 := by
      rw [← List.head?_reverse, hcons]
      rfl
    rw [List.getLast?_eq_getLast _ hdne] at h1
    have h2 := Option.some.inj h1
    rw [← h2]
    exact hlast
  refine ⟨d0, ds, hd0ne, hd0lt, ?_, ?_, ?_⟩
  · intro d hd
    have : d ∈ (Nat.digits 10 n).reverse := by rw [hcons]; simp [hd]
    exact Nat.digits_lt_base (by norm_num) (by simpa using this)
  · rw [renderNat, if_neg hn, hcons]
    simp
  · have h10 : (10 : Nat) * 0 + d0 = d0 := by omega
    rw [← h10, ← List.foldl_cons]
    exact hfold

/-! ## Full-value round trip -/

theorem string_mk_data (s : String) : String.mk s.data = s := rfl

theorem boundVal_pos (j : Json) : 1 ≤ boundVal j := by
  cases j <;> simp [boundVal]

theorem boundElems_pos {xs : List Json} (h : xs ≠ []) : 1 ≤ boundElems xs := by
  cases xs with
  | nil => exact absurd rfl h
  | cons x t => cases t <;> simp [boundElems] <;> omega

theorem boundMembers_pos {kvs : List (String × Json)} (h : kvs ≠ []) :
    1 ≤ boundMembers kvs := by
  cases kvs with
  | nil => exact absurd rfl h
  | cons m t =>
    obtain ⟨k, v⟩ := m
    cases t <;> simp [boundMembers] <;> omega

theorem renderJson_head (j : Json) :
    ∃ c cs, renderJson j = c :: cs ∧ isWs c = false ∧ c ≠ ']' ∧ c ≠ '}' := by
  cases j with
  | null => exact ⟨'n', ['u', 'l', 'l'], by simp [renderJson], by decide, by decide, by decide⟩
  | bool b =>
    cases b with
    | true =>
      exact ⟨'t', ['r', 'u', 'e'], by simp [renderJson], by decide, by decide, by decide⟩
    | false =>
      exact ⟨'f', ['a', 'l', 's', 'e'], by simp [renderJson], by decide, by decide, by decide⟩
  | num i =>
    by_cases hneg : i < 0
    · exact ⟨'-', renderNat i.natAbs, by simp [renderJson, renderInt, hneg],
        by decide, by decide, by decide⟩
    · obtain ⟨ds, hne, hlt, hrend, _⟩ := renderNat_spec i.toNat
      obtain ⟨d0, ds', rfl⟩ := List.exists_cons_of_ne_nil hne
      have hd0 : d0 < 10 := hlt d0 (by simp)
      refine ⟨hexChar d0, ds'.map hexChar, ?_, hexChar_not_ws hd0, ?_, ?_⟩
      · simp [renderJson, renderInt, hneg, hrend]
      · exact hexChar_ne_of_not_digit hd0 ']' (by decide)
      · exact hexChar_ne_of_not_digit hd0 '}' (by decide)
  | str s =>
    exact ⟨'"', escapeList s.data ++ ['"'], by simp [renderJson, renderString],
      by decide, by decide, by decide⟩
  | arr xs =>
    exact ⟨'[', renderElems xs ++ [']'], by simp [renderJson], by decide, by decide, by decide⟩
  | obj kvs =>
    exact ⟨'{', renderMembers kvs ++ ['}'], by simp [renderJson], by decide, by decide, by decide⟩

/-- Bundled printer-parser round trip, proved by strong induction on the size
of the value: parsing the rendered form of a value (an element list, a member
list) consumes exactly it and returns it. -/
theorem parse_render_bundle (n : Nat) :
    (∀ (j : Json) (fuel depth : Nat) (rest : List Char), sizeOf j ≤ n →
        boundVal j ≤ fuel → jsonDepth j < depth → restSafe rest →
        parseVal fuel depth (renderJson j ++ rest) = some (j, rest))
      ∧ (∀ (xs : List Json) (fuel depth : Nat) (rest : List Char), sizeOf xs ≤ n →
          xs ≠ [] → boundElems xs ≤ fuel → depthElems xs < depth →
          parseElems fuel depth (renderElems xs ++ ']' :: rest) = some (xs, rest))
      ∧ (∀ (kvs : List (String × Json)) (fuel depth : Nat) (rest : List Char), sizeOf kvs ≤ n →
          kvs ≠ [] → boundMembers kvs ≤ fuel → depthMembers kvs < depth →
          parseMembers fuel depth (renderMembers kvs ++ '}' :: rest) = some (kvs, rest)) := by
  induction n with
  | zero =>
    refine ⟨?_, ?_, ?_⟩
    · intro j fuel depth rest hsz _ _ _
      exact absurd hsz (by cases j <;> simp)
    · intro xs fuel depth rest hsz _ _ _
      exact absurd hsz (by cases xs <;> simp)
    · intro kvs fuel depth rest hsz _ _ _
      exact absurd hsz (by cases kvs <;> simp)
  | succ n ihn =>
    obtain ⟨ihv, ihe, ihm⟩ := ihn
    refine ⟨?_, ?_, ?_⟩
    · intro j fuel depth rest hsz hfuel hdepth hrest
      have hpos := boundVal_pos j
      cases fuel with
      | zero => omega
      | succ f =>
        cases j with
        | null => simp [renderJson, parseVal, skipWs, isWs]
        | bool b => cases b <;> simp [renderJson, parseVal, skipWs, isWs]
        | str s =>
          simp [renderJson, renderString, parseVal, skipWs, isWs, List.append_assoc,
            parseStr_render, string_mk_data]
        | num i =>
          by_cases hneg : i < 0
          · have hnz : i.natAbs ≠ 0 := by omega
            obtain ⟨d0, ds, hd0ne, hd0, hlt, hrend, hfold⟩ := renderNat_spec_pos i.natAbs hnz
            have hdig := hexChar_isDigit hd0
            have hne0 := hexChar_ne_zero_char hd0 hd0ne
            have htd := takeDigits_digits ds hlt d0 rest hrest
            simp only [renderJson, renderInt, if_pos hneg, hrend, List.map_cons,
              List.cons_append, List.append_assoc]
            rw [parseVal.eq_def]
            simp [skipWs, isWs, hdig, hne0, hexChar_toNat hd0]
            rw [htd]
            simp only [hfold]
            exact ⟨by omega, trivial⟩
          · by_cases hz : i = 0
            · subst hz
              rw [parseVal.eq_def]
              simp [renderJson, renderInt, renderNat, skipWs, isWs]
            · have hnz : i.toNat ≠ 0 := by omega
              obtain ⟨d0, ds, hd0ne, hd0, hlt, hrend, hfold⟩ := renderNat_spec_pos i.toNat hnz
              have hdig := hexChar_isDigit hd0
              have hws := hexChar_not_ws hd0
              have hne0 := hexChar_ne_zero_char hd0 hd0ne
              have hne1 := hexChar_ne_of_not_digit hd0 '"' (by decide)
              have hne2 := hexChar_ne_of_not_digit hd0 '[' (by decide)
              have hne3 := hexChar_ne_of_not_digit hd0 '{' (by decide)
              have hne4 := hexChar_ne_of_not_digit hd0 't' (by decide)
              have hne5 := hexChar_ne_of_not_digit hd0 'f' (by decide)
              have hne6 := hexChar_ne_of_not_digit hd0 'n' (by decide)
              have hne7 := hexChar_ne_of_not_digit hd0 '-' (by decide)
              have htd := takeDigits_digits ds hlt d0 rest hrest
              simp only [renderJson, renderInt, if_neg hneg, hrend, List.map_cons,
                List.cons_append, List.append_assoc]
              rw [parseVal.eq_def]
              simp only [skipWs, hws]
              norm_num
              simp only [hne0, hne1, hne2, hne3, hne4, hne5, hne6, hne7, hdig,
                hexChar_toNat hd0]
              norm_num
              rw [htd]
              simp only [hfold]
              exact ⟨by omega, trivial⟩
        | arr xs =>
          have hgd : ¬ depth ≤ 1 := by
            simp only [jsonDepth] at hdepth
            omega
          cases xs with
          | nil => simp [renderJson, renderElems, parseVal, skipWs, isWs, hgd]
          | cons x t =>
            obtain ⟨c0, cs0, hx, hws0, hne0, _⟩ := renderJson_head x
            have hbe : boundElems (x :: t) ≤ f := by
              simp only [boundVal] at hfuel
              omega
            have hde : depthElems (x :: t) < depth - 1 := by
              simp only [jsonDepth] at hdepth
              omega
            have hsze : sizeOf (x :: t) ≤ n := by
              simp at hsz ⊢
              omega
            have hre := ihe (x :: t) f (depth - 1) rest hsze (by simp) hbe hde
            have htail : ∃ tail, renderElems (x :: t) ++ ']' :: rest = c0 :: tail := by
              cases t with
              | nil => exact ⟨cs0 ++ ']' :: rest, by simp [renderElems, hx]⟩
              | cons y t' =>
                exact ⟨cs0 ++ ',' :: renderElems (y :: t') ++ ']' :: rest,
                  by simp [renderElems, hx]⟩
            obtain ⟨tail, htail⟩ := htail
            rw [parseVal.eq_def]
            simp only [renderJson, List.cons_append, List.append_assoc, List.nil_append]
            rw [htail]
            simp [skipWs, hws0, hne0, hgd, show isWs '[' = false from rfl]
            rw [← htail, hre]
        | obj kvs =>
          have hgd : ¬ depth ≤ 1 := by
            simp only [jsonDepth] at hdepth
            omega
          cases kvs with
          | nil => simp [renderJson, renderMembers, parseVal, skipWs, isWs, hgd]
          | cons m ms =>
            obtain ⟨k, v⟩ := m
            have hbm : boundMembers ((k, v) :: ms) ≤ f := by
              simp only [boundVal] at hfuel
              omega
            have hdm : depthMembers ((k, v) :: ms) < depth - 1 := by
              simp only [jsonDepth] at hdepth
              omega
            have hszm : sizeOf ((k, v) :: ms) ≤ n := by
              simp at hsz ⊢
              omega
            have hre := ihm ((k, v) :: ms) f (depth - 1) rest hszm (by simp) hbm hdm
            have htail : ∃ tail, renderMembers ((k, v) :: ms) ++ '}' :: rest = '"' :: tail := by
              cases ms with
              | nil =>
                exact ⟨(escapeList k.data ++ ['"']) ++ ':' :: renderJson v ++ '}' :: rest,
                  by simp [renderMembers, renderString]⟩
              | cons m' ms' =>
                exact ⟨(escapeList k.data ++ ['"'])
                    ++ ':' :: renderJson v ++ ',' :: renderMembers (m' :: ms') ++ '}' :: rest,
                  by simp [renderMembers, renderString]⟩
            obtain ⟨tail, htail⟩ := htail
            rw [parseVal.eq_def]
            simp only [renderJson, List.cons_append, List.append_assoc, List.nil_append]
            rw [htail]
            simp [skipWs, hgd, show isWs '{' = false from rfl, show isWs '"' = false from rfl]
            rw [← htail, hre]
    · intro xs fuel depth rest hsz hne hfuel hdepth
      cases xs with
      | nil => exact absurd rfl hne
      | cons x t =>
        have hpos : 1 ≤ boundElems (x :: t) := boundElems_pos (by simp)
        have hdx : jsonDepth x < depth := by
          simp only [depthElems] at hdepth
          exact lt_of_le_of_lt (le_max_left _ _) hdepth
        cases fuel with
        | zero => omega
        | succ f =>
          cases t with
          | nil =>
            have hbx : boundVal x ≤ f := by
              simp only [boundElems] at hfuel
              omega
            have hszx : sizeOf x ≤ n := by
              simp at hsz
              omega
            have hpv := ihv x f depth (']' :: rest) hszx hbx hdx (by simp [restSafe])
            rw [parseElems.eq_def]
            simp only [renderElems, List.append_assoc, List.cons_append, List.nil_append]
            rw [hpv]
            simp [skipWs, isWs]
          | cons y t' =>
            have hbx : boundVal x ≤ f := by
              simp only [boundElems] at hfuel
              omega
            have hbt : boundElems (y :: t') ≤ f := by
              simp only [boundElems] at hfuel
              omega
            have hdt : depthElems (y :: t') < depth := by
              simp only [depthElems] at hdepth
              exact lt_of_le_of_lt (le_max_right _ _) hdepth
            have hszx : sizeOf x ≤ n := by
              simp at hsz
              omega
            have hszt : sizeOf (y :: t') ≤ n := by
              simp at hsz ⊢
              omega
            have hpv := ihv x f depth (',' :: (renderElems (y :: t') ++ ']' :: rest)) hszx hbx
              hdx (by simp [restSafe])
            have hrec := ihe (y :: t') f depth rest hszt (by simp) hbt hdt
            rw [parseElems.eq_def]
            simp only [renderElems, List.append_assoc, List.cons_append, List.nil_append]
            rw [hpv]
            simp [skipWs, isWs, hrec]
    · intro kvs fuel depth rest hsz hne hfuel hdepth
      cases kvs with
      | nil => exact absurd rfl hne
      | cons m ms =>
        obtain ⟨k, v⟩ := m
        have hpos : 1 ≤ boundMembers ((k, v) :: ms) := boundMembers_pos (by simp)
        have hdv : jsonDepth v < depth := by
          simp only [depthMembers] at hdepth
          exact lt_of_le_of_lt (le_max_left _ _) hdepth
        cases fuel with
        | zero => omega
        | succ f =>
          cases ms with
          | nil =>
            have hbv : boundVal v ≤ f := by
              simp only [boundMembers] at hfuel
              omega
            have hszv : sizeOf v ≤ n := by
              simp at hsz
              omega
            have hpv := ihv v f depth ('}' :: rest) hszv hbv hdv (by simp [restSafe])
            rw [parseMembers.eq_def]
            simp only [renderMembers, renderString, List.append_assoc, List.cons_append,
              List.nil_append]
            simp [skipWs, isWs]
            rw [parseStr_render]
            simp [skipWs, isWs]
            rw [hpv]
            simp [skipWs, isWs, string_mk_data]
          | cons m' ms' =>
            have hbv : boundVal v ≤ f := by
              simp only [boundMembers] at hfuel
              omega
            have hbt : boundMembers (m' :: ms') ≤ f := by
              simp only [boundMembers] at hfuel
              omega
            have hdt : depthMembers (m' :: ms') < depth := by
              simp only [depthMembers] at hdepth
              exact lt_of_le_of_lt (le_max_right _ _) hdepth
            have hszv : sizeOf v ≤ n := by
              simp at hsz
              omega
            have hszt : sizeOf (m' :: ms') ≤ n := by
              simp at hsz ⊢
              omega
            have hpv := ihv v f depth (',' :: (renderMembers (m' :: ms') ++ '}' :: rest)) hszv
              hbv hdv (by simp [restSafe])
            have hrec := ihm (m' :: ms') f depth rest hszt (by simp) hbt hdt
            rw [parseMembers.eq_def]
            simp only [renderMembers, renderString, List.append_assoc, List.cons_append,
              List.nil_append]
            simp [skipWs, isWs]
            rw [parseStr_render]
            simp [skipWs, isWs]
            rw [hpv]
            simp [skipWs, isWs, hrec, string_mk_data]

/-- Printer-parser round trip for one JSON value, with any trailing input that
cannot extend the parse, provided the recursion-depth budget exceeds the
nesting depth of the value. -/
theorem parseVal_render (j : Json) (fuel depth : Nat) (rest : List Char)
    (hfuel : boundVal j ≤ fuel) (hdepth : jsonDepth j < depth) (hrest : restSafe rest) :
    parseVal fuel depth (renderJson j ++ rest) = some (j, rest) :=
  (parse_render_bundle (sizeOf j)).1 j fuel depth rest le_rfl hfuel hdepth hrest

/-! ## Fuel bound against rendered length -/

theorem renderNat_ne_nil (n : Nat) : renderNat n ≠ [] := by
  by_cases h : n = 0
  · simp [renderNat, h]
  · simp [renderNat, h, Nat.digits_ne_nil_iff_ne_zero]

theorem renderInt_length_pos (i : Int) : 1 ≤ (renderInt i).length := by
  by_cases h : i < 0
  · simp [renderInt, h]
  · simp only [renderInt, if_neg h]
    have := renderNat_ne_nil i.toNat
    cases hr : renderNat i.toNat with
    | nil => exact absurd hr this
    | cons a b => simp

/-- The parsing fuel needed for a rendered value is at most its length (with
one unit of slack for element and member lists). -/
theorem bound_le_renderLen (n : Nat) :
    (∀ j : Json, sizeOf j ≤ n → boundVal j ≤ (renderJson j).length)
      ∧ (∀ xs : List Json, sizeOf xs ≤ n → boundElems xs ≤ (renderElems xs).length + 1)
      ∧ (∀ kvs : List (String × Json), sizeOf kvs ≤ n →
          boundMembers kvs ≤ (renderMembers kvs).length + 1) := by
  induction n with
  | zero =>
    refine ⟨?_, ?_, ?_⟩
    · intro j hsz
      exact absurd hsz (by cases j <;> simp)
    · intro xs hsz
      exact absurd hsz (by cases xs <;> simp)
    · intro kvs hsz
      exact absurd hsz (by cases kvs <;> simp)
  | succ n ihn =>
    obtain ⟨ihv, ihe, ihm⟩ := ihn
    refine ⟨?_, ?_, ?_⟩
    · intro j hsz
      cases j with
      | null => simp [boundVal, renderJson]
      | bool b => cases b <;> simp [boundVal, renderJson]
      | num i =>
        have := renderInt_length_pos i
        simp only [boundVal, renderJson]
        omega
      | str s => simp [boundVal, renderJson, renderString]
      | arr xs =>
        have hsx : sizeOf xs ≤ n := by
          simp at hsz
          omega
        have := ihe xs hsx
        simp only [boundVal, renderJson]
        simp only [List.length_cons, List.length_append]
        omega
      | obj kvs =>
        have hsk : sizeOf kvs ≤ n := by
          simp at hsz
          omega
        have := ihm kvs hsk
        simp only [boundVal, renderJson]
        simp only [List.length_cons, List.length_append]
        omega
    · intro xs hsz
      cases xs with
      | nil => simp [boundElems, renderElems]
      | cons x t =>
        have hsx : sizeOf x ≤ n := by
          simp at hsz
          omega
        have hx := ihv x hsx
        cases t with
        | nil =>
          simp only [boundElems, renderElems]
          omega
        | cons y t' =>
          have hst : sizeOf (y :: t') ≤ n := by
            simp at hsz ⊢
            omega
          have ht := ihe (y :: t') hst
          simp only [boundElems, renderElems, List.length_append, List.length_cons]
          omega
    · intro kvs hsz
      cases kvs with
      | nil => simp [boundMembers, renderMembers]
      | cons m ms =>
        obtain ⟨k, v⟩ := m
        have hsv : sizeOf v ≤ n := by
          simp at hsz
          omega
        have hv := ihv v hsv
        cases ms with
        | nil =>
          simp only [boundMembers, renderMembers, renderString, List.length_append,
            List.length_cons]
          omega
        | cons m' ms' =>
          have hst : sizeOf (m' :: ms') ≤ n := by
            simp at hsz ⊢
            omega
          have ht := ihm (m' :: ms') hst
          simp only [boundMembers, renderMembers, renderString, List.length_append,
            List.length_cons]
          omega

/-! ## No embedded newline in rendered records -/

theorem newline_not_mem_escapeChar (c : Char) : '\n' ∉ escapeChar c := by
  have ha : '\n' ≠ hexChar (c.toNat / 16) := Ne.symm (hexChar_ne_newline (c.toNat / 16))
  have hb : '\n' ≠ hexChar (c.toNat % 16) := Ne.symm (hexChar_ne_newline (c.toNat % 16))
  by_cases h1 : c = '"'
  · simp [escapeChar, h1]
  · by_cases h2 : c = '\\'
    · simp [escapeChar, h1, h2]
    · by_cases h3 : c = '\n'
      · simp [escapeChar, h1, h2, h3]
      · by_cases h4 : c = '\t'
        · simp [escapeChar, h1, h2, h3, h4]
        · by_cases h5 : c = '\r'
          · simp [escapeChar, h1, h2, h3, h4, h5]
          · by_cases h6 : c.toNat = 8
            · simp [escapeChar, h1, h2, h3, h4, h5, h6]
            · by_cases h7 : c.toNat = 12
              · simp [escapeChar, h1, h2, h3, h4, h5, h6, h7]
              · by_cases h8 : c.toNat < 32
                · simp [escapeChar, h1, h2, h3, h4, h5, h6, h7, h8, ha, hb]
                · have h3' : '\n' ≠ c := Ne.symm h3
                  simp [escapeChar, h1, h2, h3, h4, h5, h6, h7, h8, h3']

theorem newline_not_mem_escapeList (l : List Char) : '\n' ∉ escapeList l := by
  intro hmem
  simp only [escapeList, List.mem_flatten] at hmem
  obtain ⟨xs, hxs, hmem2⟩ := hmem
  obtain ⟨c, _, rfl⟩ := List.mem_map.mp hxs
  exact newline_not_mem_escapeChar c hmem2

theorem newline_not_mem_renderString (s : String) : '\n' ∉ renderString s := by
  have h := newline_not_mem_escapeList s.data
  simp [renderString, h]

theorem newline_not_mem_renderNat (m : Nat) : '\n' ∉ renderNat m := by
  by_cases h : m = 0
  · simp [renderNat, h]
  · simp only [renderNat, if_neg h]
    intro hmem
    obtain ⟨d, _, hd⟩ := List.mem_map.mp hmem
    exact absurd hd (hexChar_ne_newline d)

theorem newline_not_mem_renderInt (i : Int) : '\n' ∉ renderInt i := by
  by_cases h : i < 0
  · have hm := newline_not_mem_renderNat i.natAbs
    simp [renderInt, h, hm]
  · simp only [renderInt, if_neg h]
    exact newline_not_mem_renderNat i.toNat

/-- No rendered JSON text contains a raw newline character: every newline in
a string value is escaped. -/
theorem newline_not_mem_render (n : Nat) :
    (∀ j : Json, sizeOf j ≤ n → '\n' ∉ renderJson j)
      ∧ (∀ xs : List Json, sizeOf xs ≤ n → '\n' ∉ renderElems xs)
      ∧ (∀ kvs : List (String × Json), sizeOf kvs ≤ n → '\n' ∉ renderMembers kvs) := by
  induction n with
  | zero =>
    refine ⟨?_, ?_, ?_⟩
    · intro j hsz
      exact absurd hsz (by cases j <;> simp)
    · intro xs hsz
      exact absurd hsz (by cases xs <;> simp)
    · intro kvs hsz
      exact absurd hsz (by cases kvs <;> simp)
  | succ n ihn =>
    obtain ⟨ihv, ihe, ihm⟩ := ihn
    refine ⟨?_, ?_, ?_⟩
    · intro j hsz
      cases j with
      | null => simp [renderJson]
      | bool b => cases b <;> simp [renderJson]
      | num i => exact newline_not_mem_renderInt i
      | str s => exact newline_not_mem_renderString s
      | arr xs =>
        have hxs := ihe xs (by simp at hsz; omega)
        simp [renderJson, hxs]
      | obj kvs =>
        have hkvs := ihm kvs (by simp at hsz; omega)
        simp [renderJson, hkvs]
    · intro xs hsz
      cases xs with
      | nil => simp [renderElems]
      | cons x t =>
        have hx := ihv x (by simp at hsz; omega)
        cases t with
        | nil => simpa [renderElems] using hx
        | cons y t' =>
          have ht := ihe (y :: t') (by simp at hsz ⊢; omega)
          simp [renderElems, hx, ht]
    · intro kvs hsz
      cases kvs with
      | nil => simp [renderMembers]
      | cons m ms =>
        obtain ⟨k, v⟩ := m
        have hv := ihv v (by simp at hsz; omega)
        have hk := newline_not_mem_renderString k
        cases ms with
        | nil => simp [renderMembers, hk, hv]
        | cons m' ms' =>
          have ht := ihm (m' :: ms') (by simp at hsz ⊢; omega)
          simp [renderMembers, hk, hv, ht]

/-- Claim C8: the encoded record of every notification contains no embedded
newline character — values containing a newline are escaped by the codec, so
one record always occupies exactly one line of the line-oriented transport. -/
theorem encode_record_no_newline (n : Notification) :
    '\n' ∉ (encodeRecord n).data := by
  have := (newline_not_mem_render (sizeOf (encodeJson n))).1 (encodeJson n) le_rfl
  simpa [encodeRecord] using this

/-! ## Round trip at the record level -/

theorem decodeValue_encodeJson (n : Notification) : decodeValue (encodeJson n) = Except.ok n := by
  rcases n with ⟨t, b, i, a, md⟩
  rcases i with _ | i <;> rcases a with _ | a <;> by_cases hm : md.isEmpty = true <;>
    first
      | (rw [List.isEmpty_iff] at hm; subst hm; rfl)
      | (simp only [encodeJson, hm]; rfl)

/-- Claim C3 as amended: for every notification none of whose string fields
(title, body, icon, activate, and the strings reachable in metadata)
contains an embedded newline, and whose encoded value nests containers
strictly below the serde_json recursion limit of 128, decoding the encoded
record returns the notification unchanged. -/
theorem decode_encode_roundtrip (n : Notification) (h : notifNoNewline n = true)
    (hd : jsonDepth (encodeJson n) < recursionLimit) :
    decodeRecord (encodeRecord n) = Except.ok n := by
  have hb := (bound_le_renderLen (sizeOf (encodeJson n))).1 (encodeJson n) le_rfl
  have hp := parseVal_render (encodeJson n) ((renderJson (encodeJson n)).length + 1)
    recursionLimit [] (by omega) hd (by simp [restSafe])
  rw [List.append_nil] at hp
  simp [decodeRecord, parseDocument, encodeRecord, hp, skipWs, decodeValue_encodeJson n,
    show ∀ L : List Char, (String.mk L).data = L from fun L => rfl,
    show ∀ L : List Char, (String.mk L).length = L.length from fun L => rfl]

/-- Witness for C3 at a concrete notification with all optional fields
present. -/
theorem decode_encode_roundtrip_witness :
    notifNoNewline
        { title := "Ahoy", body := "Build finished", icon := some "claude",
          activate := some "com.apple.Terminal",
          metadata := [("k", Json.str "v")] } = true
      ∧ decodeRecord (encodeRecord
          { title := "Ahoy", body := "Build finished", icon := some "claude",
            activate := some "com.apple.Terminal",
            metadata := [("k", Json.str "v")] })
        = Except.ok
          { title := "Ahoy", body := "Build finished", icon := some "claude",
            activate := some "com.apple.Terminal",
            metadata := [("k", Json.str "v")] } :=
  ⟨rfl, decode_encode_roundtrip _ rfl (by decide)⟩

set_option maxRecDepth 40000 in
/-- Counterexample to claim C3 as stated: a notification whose metadata
nests containers past the serde_json recursion limit (128) has no embedded
newline in any string field, encodes successfully, and yet fails to decode —
the parser rejects the encoded record at the depth limit. -/
theorem decode_encode_roundtrip_cex :
    notifNoNewline
        { title := "t", body := "b", icon := none, activate := none,
          metadata := [("k", deepJson 126)] } = true
      ∧ decodeRecord (encodeRecord
          { title := "t", body := "b", icon := none, activate := none,
            metadata := [("k", deepJson 126)] })
        = Except.error DecodeError.malformed :=
  ⟨rfl, rfl⟩

/-! ## Decoder field characterization -/

theorem stepField_unknown {k : String} (hr : recognizedKey k = false) (p : FieldState)
    (v : Json) : stepField p (k, v) = Except.ok p := by
  simp only [recognizedKey, Bool.or_eq_false_iff, decide_eq_false_iff_not] at hr
  obtain ⟨⟨⟨⟨n1, n2⟩, n3⟩, n4⟩, n5⟩ := hr
  simp [stepField, n1, n2, n3, n4, n5]

theorem except_bind_ok {ε α β : Type} (a : α) (f : α → Except ε β) :
    (Except.ok a >>= f) = f a := rfl

theorem except_bind_error {ε α β : Type} (e : ε) (f : α → Except ε β) :
    ((Except.error e : Except ε α) >>= f) = Except.error e := rfl

theorem foldlM_filter_recognized (kvs : List (String × Json)) :
    ∀ p, kvs.foldlM stepField p
      = (kvs.filter fun kv => recognizedKey kv.1).foldlM stepField p := by
  induction kvs with
  | nil => intro p; rfl
  | cons kv rest ih =>
    intro p
    obtain ⟨k, v⟩ := kv
    by_cases hr : recognizedKey k = true
    · simp only [List.filter_cons, hr, if_true, List.foldlM_cons]
      cases hstep : stepField p (k, v) with
      | error e => rw [except_bind_error, except_bind_error]
      | ok p1 => rw [except_bind_ok, except_bind_ok, ih p1]
    · have hr' : recognizedKey k = false := by simpa using hr
      simp only [List.filter_cons, hr']
      rw [List.foldlM_cons, stepField_unknown hr', except_bind_ok, ih p]
      simp

/-- Claim C10 as amended: once a record parses as an object, unrecognized
keys are silently discarded — decoding the record equals decoding only its
recognized members, so unknown keys never reach the metadata mapping.  (The
parse itself still enforces the recursion limit, also inside the values of
unknown keys.) -/
theorem decode_ignores_unknown_keys (s : String) (kvs : List (String × Json))
    (h : parseDocument s = some (Json.obj kvs)) :
    decodeRecord s = decodeFields (kvs.filter fun kv => recognizedKey kv.1) := by
  rw [decodeRecord, h]
  show decodeFields kvs = _
  unfold decodeFields
  rw [foldlM_filter_recognized kvs FieldState.init]

/-- Witness for C10: a record with the unknown key `x` decodes exactly as
its recognized members do, successfully. -/
theorem decode_ignores_unknown_keys_witness :
    decodeRecord "\x7b\"title\":\"t\",\"body\":\"b\",\"x\":1\x7d"
        = decodeFields ([("title", Json.str "t"), ("body", Json.str "b"),
            ("x", Json.num 1)].filter fun kv => recognizedKey kv.1)
      ∧ decodeRecord "\x7b\"title\":\"t\",\"body\":\"b\",\"x\":1\x7d"
        = Except.ok
          { title := "t", body := "b", icon := none, activate := none, metadata := [] } :=
  ⟨decode_ignores_unknown_keys "\x7b\"title\":\"t\",\"body\":\"b\",\"x\":1\x7d"
      [("title", Json.str "t"), ("body", Json.str "b"), ("x", Json.num 1)] rfl,
    rfl⟩

set_option maxRecDepth 40000 in
/-- Counterexample to claim C10 as stated: a record whose unknown key `x`
carries a value nested past the recursion limit fails to decode (the limit
is enforced while reading the skipped value), while the same record with the
unrecognized key removed decodes successfully — so decoding with unknown
keys present is not always equal to decoding with them removed. -/
theorem decode_ignores_unknown_keys_cex :
    decodeRecord (String.mk (renderJson (Json.obj [("title", Json.str "t"),
          ("body", Json.str "b"), ("x", deepJson 127)])))
        = Except.error DecodeError.malformed
      ∧ decodeRecord (String.mk (renderJson (Json.obj
            (([("title", Json.str "t"), ("body", Json.str "b"),
                ("x", deepJson 127)]).filter fun kv => recognizedKey kv.1))))
        = Except.ok
          { title := "t", body := "b", icon := none, activate := none, metadata := [] } :=
  ⟨rfl, rfl⟩

end Ahoy
